import Mathlib

/-!
# mcat: byte-wise copy of a file to standard output

A shallow embedding of `eofnotchar/mcat.go` (function `main`) as a deterministic
machine over an explicit environment:

* `os.Args` is a list of strings (program name first);
* `os.Open` is a function from paths to an open result: an error with its text,
  or a file handle;
* a file handle is the sequence of results of the successive `file.Read(buffer)`
  calls on the one-byte buffer: each delivers zero or one byte and an error
  value (`nil`, `io.EOF`, or some other error);
* standard output is a list of bytes, standard error a string, and every
  operation on the file and on the two streams is recorded in a trace.

Go strings are byte sequences: `string(buffer[:n])` keeps the bytes as they are
and `fmt.Print` of a string writes exactly those bytes.
-/

namespace Mcat

/-- One byte, a value in 0x00..0xFF. -/
abbrev Byte := Fin 256

/-- The error value returned by `file.Read`: `io.EOF` or any other error. -/
inductive ReadErr where
  | eof
  | other (msg : String)
  deriving DecidableEq, Repr

/-- The result of one `file.Read(buffer)` on the one-byte buffer: the byte
stored in `buffer[0]` when one byte was read (`none` when zero bytes were
read), and the error value (`none` is `nil`). -/
structure ReadResult where
  data : Option Byte
  err : Option ReadErr
  deriving DecidableEq, Repr

/-- The byte count `n` returned by the read: 0 or 1. -/
def ReadResult.bytesread (r : ReadResult) : Nat :=
  match r.data with
  | none => 0
  | some _ => 1

/-- An open file: the result of its k-th `Read` call, for k = 0, 1, 2, ... -/
abbrev File := Nat → ReadResult

/-- The result of `os.Open(path)`. -/
inductive OpenResult where
  | ok (file : File)
  | error (text : String)

/-- The file system as seen through `os.Open`. -/
abbrev FileSystem := String → OpenResult

/-- Operations on the file, on the two output streams and on the process. -/
inductive Event where
  | osOpen (path : String)
  | read
  | write (bytes : List Byte)
  | errWrite (text : String)
  | close
  | exit (code : Nat)
  deriving DecidableEq, Repr

/-- Control points of `main`: before line 11, at the head of the loop
(line 19), after the `break` (line 25), after the process has exited with a
code, and after the run-time failure of an out-of-range index (what the
run-time system reports for that failure is outside the model). -/
inductive Pc where
  | start
  | reading
  | closing
  | exited (code : Nat)
  | panicked (index : Nat) (len : Nat)
  deriving DecidableEq, Repr

/-- The state of a run. `file` is the handle (`none` is the nil handle),
`pos` the number of `Read` calls made so far. -/
structure State where
  pc : Pc
  file : Option File
  pos : Nat
  closed : Bool
  buffer : List Byte
  stdout : List Byte
  stderr : String
  trace : List Event

/-- The state in which `main` is entered. -/
def init : State :=
  { pc := Pc.start, file := none, pos := 0, closed := false, buffer := [],
    stdout := [], stderr := "", trace := [] }

/-- The result the next `Read` call on the handle of `s` will have. A read on
the nil handle returns zero bytes and an invalid-argument error. -/
def State.nextRead (s : State) : ReadResult :=
  match s.file with
  | some f => f s.pos
  | none => { data := none, err := some (ReadErr.other "invalid argument") }

/-- `file.Read(buffer)`: the first `n` bytes of the buffer are overwritten by
the bytes read; returns the new buffer, `n` and the error value. -/
def fileRead (s : State) : List Byte × Nat × Option ReadErr :=
  let r := s.nextRead
  let buffer := match r.data with
    | some b => s.buffer.set 0 b
    | none => s.buffer
  (buffer, r.bytesread, r.err)

/-- One step of `main`.
* `start`: lines 11-17, index `os.Args[1]`, open, report an open failure and
  exit with 1, or allocate the one-byte buffer;
* `reading`: lines 19-23, one iteration of the loop;
* `closing`: line 25 and the return from `main`. -/
def step (osArgs : List String) (fs : FileSystem) (s : State) : State :=
  match s.pc with
  | Pc.start =>
    match osArgs[1]? with
    | none => { s with pc := Pc.panicked 1 osArgs.length }
    | some path =>
      match fs path with
      | OpenResult.error text =>
        { s with
          pc := Pc.exited 1
          stderr := s.stderr ++ ("mcat: " ++ text ++ "\n")
          trace := s.trace ++
            [Event.osOpen path, Event.errWrite ("mcat: " ++ text ++ "\n"), Event.exit 1] }
      | OpenResult.ok f =>
        { s with
          pc := Pc.reading
          file := some f
          buffer := [0]
          trace := s.trace ++ [Event.osOpen path] }
  | Pc.reading =>
    match fileRead s with
    | (buffer, bytesread, err) =>
      if err = some ReadErr.eof then
        { s with
          pc := Pc.closing
          pos := s.pos + 1
          buffer := buffer
          trace := s.trace ++ [Event.read] }
      else
        { s with
          pos := s.pos + 1
          buffer := buffer
          stdout := s.stdout ++ buffer.take bytesread
          trace := s.trace ++ [Event.read, Event.write (buffer.take bytesread)] }
  | Pc.closing =>
    { s with
      pc := Pc.exited 0
      closed := true
      trace := s.trace ++ [Event.close, Event.exit 0] }
  | Pc.exited _ => s
  | Pc.panicked _ _ => s

/-- The state of `main` after `n` steps. -/
def main (osArgs : List String) (fs : FileSystem) : Nat → State
  | 0 => init
  | n + 1 => step osArgs fs (main osArgs fs n)

/-- A run has ended when the process has exited or failed. -/
def State.halted (s : State) : Bool :=
  match s.pc with
  | Pc.exited _ => true
  | Pc.panicked _ _ => true
  | _ => false

/-! ## Environments -/

/-- A regular file with content `C`: the reads deliver `C` one byte at a time,
then report end-of-file with zero bytes. -/
def fileOf (C : List Byte) : File := fun k =>
  match C[k]? with
  | some b => { data := some b, err := none }
  | none => { data := none, err := some ReadErr.eof }

/-- The bytes delivered by the first `k` reads of a file, in order. -/
def delivered (f : File) : Nat → List Byte
  | 0 => []
  | k + 1 => delivered f k ++ (f k).data.toList

/-- The trace of `k` loop iterations that each read and then write. -/
def loopTrace (f : File) : Nat → List Event
  | 0 => []
  | k + 1 => loopTrace f k ++ [Event.read, Event.write (f k).data.toList]

/-- The file system used in the worked examples. -/
def sampleFS : FileSystem := fun p =>
  if p = "abc" then OpenResult.ok (fileOf [0x41, 0x42, 0x43])
  else if p = "empty" then OpenResult.ok (fileOf [])
  else if p = "bin" then OpenResult.ok (fileOf [0x00, 0xFF])
  else if p = "eofbyte" then
    OpenResult.ok (fun k =>
      if k = 0 then { data := some 0x41, err := none }
      else { data := some 0x58, err := some ReadErr.eof })
  else if p = "stuck" then
    OpenResult.ok (fun _ => { data := none, err := some (ReadErr.other "input/output error") })
  else OpenResult.error ("open " ++ p ++ ": no such file or directory")

/-- What a path names. -/
inductive Node where
  | absent
  | regular (content : List Byte)
  | directory

/-- The behaviour of `os.Open` and of the later `Read` calls on a POSIX system,
as implemented by the Go `os` package: a missing path fails to open; a regular
file opens and delivers its content; a directory opens as well (read-only opens
of directories succeed) and every `Read` on it returns zero bytes and the
error `read <path>: is a directory`, which is not `io.EOF`. -/
def posixOpen (path : String) : Node → OpenResult
  | Node.absent => OpenResult.error ("open " ++ path ++ ": no such file or directory")
  | Node.regular content => OpenResult.ok (fileOf content)
  | Node.directory =>
    OpenResult.ok (fun _ =>
      { data := none, err := some (ReadErr.other ("read " ++ path ++ ": is a directory")) })

/-- The file system of a POSIX machine whose paths name the given nodes. -/
def posixFS (nodes : String → Node) : FileSystem := fun p => posixOpen p (nodes p)

/-- A tree in which only the path `d` exists, and names a directory. -/
def dirNodes : String → Node := fun p => if p = "d" then Node.directory else Node.absent

/-- The lifecycle after the open, as the specification words it:
zero or more repetitions of (read then write), then close, then exit. -/
def lifecycleTail : List Event → Bool
  | [Event.close, Event.exit _] => true
  | Event.read :: Event.write _ :: rest => lifecycleTail rest
  | _ => false

/-- The lifecycle as the specification words it:
open, then (read then write) repeated, then close, then exit. -/
def lifecycle : List Event → Bool
  | Event.osOpen _ :: rest => lifecycleTail rest
  | _ => false

/-- What holds of every state of a run whose open succeeded or has not
happened yet. -/
def QuietState (s : State) : Prop :=
  s.stderr = "" ∧ (∀ t, Event.errWrite t ∉ s.trace) ∧
  (∀ c, s.pc = Pc.exited c → c = 0) ∧ (∀ i l, s.pc ≠ Pc.panicked i l)

/-! ## Basic facts about the machine -/

theorem step_of_halted (osArgs : List String) (fs : FileSystem) (s : State)
    (h : s.halted = true) : step osArgs fs s = s := by
  unfold State.halted at h
  unfold step
  split <;> simp_all

theorem main_succ (osArgs : List String) (fs : FileSystem) (n : Nat) :
    main osArgs fs (n + 1) = step osArgs fs (main osArgs fs n) := rfl

theorem main_of_halted (osArgs : List String) (fs : FileSystem) (n : Nat)
    (h : (main osArgs fs n).halted = true) (m : Nat) (hm : n ≤ m) :
    main osArgs fs m = main osArgs fs n := by
  induction m, hm using Nat.le_induction with
  | base => rfl
  | succ m _ ih => rw [main_succ, ih, step_of_halted _ _ _ h]

/-- What one loop iteration does when the read does not report end-of-file. -/
theorem step_reading_go (osArgs : List String) (fs : FileSystem) (s : State)
    (hpc : s.pc = Pc.reading) (hlen : s.buffer.length = 1)
    (hne : s.nextRead.err ≠ some ReadErr.eof) :
    (step osArgs fs s).pc = Pc.reading ∧ (step osArgs fs s).file = s.file ∧
    (step osArgs fs s).pos = s.pos + 1 ∧ (step osArgs fs s).closed = s.closed ∧
    (step osArgs fs s).buffer.length = 1 ∧
    (step osArgs fs s).stdout = s.stdout ++ s.nextRead.data.toList ∧
    (step osArgs fs s).stderr = s.stderr ∧
    (step osArgs fs s).trace
      = s.trace ++ [Event.read, Event.write s.nextRead.data.toList] := by
  obtain ⟨x, hx⟩ := List.length_eq_one.mp hlen
  cases hd : s.nextRead.data <;>
    simp [step, hpc, fileRead, hne, hd, hx, ReadResult.bytesread]

/-- What one loop iteration does when the read reports end-of-file. -/
theorem step_reading_eof (osArgs : List String) (fs : FileSystem) (s : State)
    (hpc : s.pc = Pc.reading) (he : s.nextRead.err = some ReadErr.eof) :
    (step osArgs fs s).pc = Pc.closing ∧ (step osArgs fs s).file = s.file ∧
    (step osArgs fs s).pos = s.pos + 1 ∧ (step osArgs fs s).closed = s.closed ∧
    (step osArgs fs s).stdout = s.stdout ∧
    (step osArgs fs s).stderr = s.stderr ∧
    (step osArgs fs s).trace = s.trace ++ [Event.read] := by
  simp [step, hpc, fileRead, he]

/-- The state at the head of the loop after `k` reads, none of which
reported end-of-file. -/
theorem main_loop (osArgs : List String) (fs : FileSystem) (path : String) (f : File)
    (hp : osArgs[1]? = some path) (hf : fs path = OpenResult.ok f) (k : Nat)
    (hk : ∀ i, i < k → (f i).err ≠ some ReadErr.eof) :
    (main osArgs fs (k + 1)).pc = Pc.reading ∧
    (main osArgs fs (k + 1)).file = some f ∧
    (main osArgs fs (k + 1)).pos = k ∧
    (main osArgs fs (k + 1)).closed = false ∧
    (main osArgs fs (k + 1)).buffer.length = 1 ∧
    (main osArgs fs (k + 1)).stdout = delivered f k ∧
    (main osArgs fs (k + 1)).stderr = "" ∧
    (main osArgs fs (k + 1)).trace = Event.osOpen path :: loopTrace f k := by
  induction k with
  | zero => simp [main, step, init, hp, hf, delivered, loopTrace]
  | succ k ih =>
    obtain ⟨h1, h2, h3, h4, h5, h6, h7, h8⟩ := ih (fun i hi => hk i (Nat.lt_succ_of_lt hi))
    have hnr : (main osArgs fs (k + 1)).nextRead = f k := by
      simp [State.nextRead, h2, h3]
    have hne : (main osArgs fs (k + 1)).nextRead.err ≠ some ReadErr.eof := by
      rw [hnr]; exact hk k (Nat.lt_succ_self k)
    obtain ⟨g1, g2, g3, g4, g5, g6, g7, g8⟩ :=
      step_reading_go osArgs fs _ h1 h5 hne
    rw [main_succ]
    refine ⟨g1, ?_, ?_, ?_, g5, ?_, ?_, ?_⟩
    · rw [g2, h2]
    · rw [g3, h3]
    · rw [g4, h4]
    · rw [g6, h6, hnr]; rfl
    · rw [g7, h7]
    · rw [g8, h8, hnr]; rfl

/-- The two states after the first read that reports end-of-file. -/
theorem main_eof (osArgs : List String) (fs : FileSystem) (path : String) (f : File)
    (hp : osArgs[1]? = some path) (hf : fs path = OpenResult.ok f) (k : Nat)
    (hk : ∀ i, i < k → (f i).err ≠ some ReadErr.eof)
    (he : (f k).err = some ReadErr.eof) :
    ((main osArgs fs (k + 2)).pc = Pc.closing ∧
     (main osArgs fs (k + 2)).closed = false ∧
     (main osArgs fs (k + 2)).stdout = delivered f k ∧
     (main osArgs fs (k + 2)).stderr = "" ∧
     (main osArgs fs (k + 2)).trace = Event.osOpen path :: loopTrace f k ++ [Event.read]) ∧
    ((main osArgs fs (k + 3)).pc = Pc.exited 0 ∧
     (main osArgs fs (k + 3)).closed = true ∧
     (main osArgs fs (k + 3)).pos = k + 1 ∧
     (main osArgs fs (k + 3)).stdout = delivered f k ∧
     (main osArgs fs (k + 3)).stderr = "" ∧
     (main osArgs fs (k + 3)).trace
       = Event.osOpen path :: loopTrace f k ++ [Event.read, Event.close, Event.exit 0]) := by
  obtain ⟨h1, h2, h3, h4, _, h6, h7, h8⟩ := main_loop osArgs fs path f hp hf k hk
  have hnr : (main osArgs fs (k + 1)).nextRead = f k := by
    simp [State.nextRead, h2, h3]
  obtain ⟨g1, _, g3, g4, g6, g7, g8⟩ :=
    step_reading_eof osArgs fs _ h1 (by rw [hnr]; exact he)
  have e2 : main osArgs fs (k + 2) = step osArgs fs (main osArgs fs (k + 1)) := rfl
  have e3 : main osArgs fs (k + 3) = step osArgs fs (main osArgs fs (k + 2)) := rfl
  rw [← e2] at g1 g3 g4 g6 g7 g8
  refine ⟨⟨g1, by rw [g4, h4], by rw [g6, h6], by rw [g7, h7], by rw [g8, h8]⟩, ?_⟩
  rw [e3]
  simp [step, g1, g3, g6, g7, g8, h3, h6, h7, h8]

/-! ## Regular files -/

theorem fileOf_err_lt (C : List Byte) (i : Nat) (hi : i < C.length) :
    (fileOf C i).err ≠ some ReadErr.eof := by
  simp [fileOf, List.getElem?_eq_getElem hi]

theorem fileOf_err_length (C : List Byte) :
    (fileOf C C.length).err = some ReadErr.eof := by
  simp [fileOf]

theorem delivered_fileOf_take (C : List Byte) (k : Nat) :
    delivered (fileOf C) k = C.take k := by
  induction k with
  | zero => simp [delivered]
  | succ k ih =>
    rw [delivered, ih, List.take_succ]
    congr 1
    simp only [fileOf]
    cases C[k]? <;> rfl

theorem delivered_fileOf (C : List Byte) : delivered (fileOf C) C.length = C := by
  rw [delivered_fileOf_take, List.take_length]

/-! ## Runs in which the open succeeds write nothing to standard error -/

theorem quiet_step (osArgs : List String) (fs : FileSystem) (path : String) (f : File)
    (hp : osArgs[1]? = some path) (hf : fs path = OpenResult.ok f) (s : State)
    (h : QuietState s) : QuietState (step osArgs fs s) := by
  obtain ⟨h1, h2, h3, h4⟩ := h
  unfold QuietState step
  cases hpc : s.pc with
  | start => simp [hp, hf, h1, h2]
  | reading =>
    by_cases he : (fileRead s).2.2 = some ReadErr.eof <;> simp [he, h1, h2, hpc]
  | closing => simp [h1, h2]
  | exited c => simpa [hpc] using ⟨h1, h2, h3 c hpc⟩
  | panicked i l => exact absurd hpc (h4 i l)

theorem quiet_main (osArgs : List String) (fs : FileSystem) (path : String) (f : File)
    (hp : osArgs[1]? = some path) (hf : fs path = OpenResult.ok f) (n : Nat) :
    QuietState (main osArgs fs n) := by
  induction n with
  | zero => simp [QuietState, main, init]
  | succ n ih => exact quiet_step osArgs fs path f hp hf _ ih

theorem main_open_error (osArgs : List String) (fs : FileSystem) (path e : String)
    (hp : osArgs[1]? = some path) (hf : fs path = OpenResult.error e) (n : Nat)
    (hn : 1 ≤ n) :
    main osArgs fs n =
      { pc := Pc.exited 1, file := none, pos := 0, closed := false, buffer := [],
        stdout := [], stderr := "mcat: " ++ e ++ "\n",
        trace := [Event.osOpen path, Event.errWrite ("mcat: " ++ e ++ "\n"), Event.exit 1] } := by
  have h1 : main osArgs fs 1 =
      { pc := Pc.exited 1, file := none, pos := 0, closed := false, buffer := [],
        stdout := [], stderr := "mcat: " ++ e ++ "\n",
        trace := [Event.osOpen path, Event.errWrite ("mcat: " ++ e ++ "\n"), Event.exit 1] } := by
    simp [main, step, init, hp, hf]
  rw [main_of_halted osArgs fs 1 (by rw [h1]; rfl) n hn, h1]

theorem errLine_ne_empty (e : String) : "mcat: " ++ e ++ "\n" ≠ "" := by
  intro h
  have h2 := congrArg String.length h
  simp only [String.length_append] at h2
  have h3 : "mcat: ".length = 6 := by decide
  have h4 : "".length = 0 := by decide
  omega

/-- After a read, the first `n` bytes of the one-byte buffer are the bytes the
read delivered. -/
theorem step_reading_buffer (osArgs : List String) (fs : FileSystem) (s : State)
    (hpc : s.pc = Pc.reading) (hlen : s.buffer.length = 1)
    (hne : s.nextRead.err ≠ some ReadErr.eof) :
    (step osArgs fs s).buffer.take s.nextRead.bytesread = s.nextRead.data.toList := by
  obtain ⟨x, hx⟩ := List.length_eq_one.mp hlen
  cases hd : s.nextRead.data <;>
    simp [step, hpc, fileRead, hne, hd, hx, ReadResult.bytesread]

theorem step_congr (osArgs : List String) (fs1 fs2 : FileSystem)
    (h : ∀ path, osArgs[1]? = some path → fs1 path = fs2 path) (s : State) :
    step osArgs fs1 s = step osArgs fs2 s := by
  unfold step
  cases s.pc with
  | start =>
    cases ha : osArgs[1]? with
    | none => rfl
    | some path => simp only [h path ha]
  | _ => rfl

/-- While no read has reported end-of-file the run is at the head of the loop. -/
theorem main_never_eof (osArgs : List String) (fs : FileSystem) (path : String) (f : File)
    (hp : osArgs[1]? = some path) (hf : fs path = OpenResult.ok f)
    (hne : ∀ i, (f i).err ≠ some ReadErr.eof) (n : Nat) :
    (main osArgs fs n).halted = false ∧ (main osArgs fs n).closed = false ∧
    (main osArgs fs n).stdout = delivered f (n - 1) ∧ (main osArgs fs n).stderr = "" := by
  cases n with
  | zero => simp [main, init, State.halted, delivered]
  | succ k =>
    obtain ⟨h1, _, _, h4, _, h6, h7, _⟩ := main_loop osArgs fs path f hp hf k (fun i _ => hne i)
    exact ⟨by simp [State.halted, h1], h4, by simpa using h6, h7⟩

theorem count_close_loopTrace (f : File) (k : Nat) :
    (loopTrace f k).count Event.close = 0 := by
  induction k with
  | zero => rfl
  | succ k ih => simp [loopTrace, ih]

theorem count_osOpen_loopTrace (f : File) (k : Nat) (path : String) :
    (loopTrace f k).count (Event.osOpen path) = 0 := by
  induction k with
  | zero => rfl
  | succ k ih => simp [loopTrace, ih]

/-- The file stays open until the run has gone through the first read that
reports end-of-file and the step after it. -/
theorem main_not_closed (osArgs : List String) (fs : FileSystem) (path : String) (f : File)
    (hp : osArgs[1]? = some path) (hf : fs path = OpenResult.ok f) (k : Nat)
    (hk : ∀ i, i < k → (f i).err ≠ some ReadErr.eof)
    (he : (f k).err = some ReadErr.eof) (m : Nat) (hm : m ≤ k + 2) :
    (main osArgs fs m).closed = false ∧ (main osArgs fs m).halted = false := by
  rcases Nat.lt_or_ge m (k + 2) with hlt | hge
  · cases m with
    | zero => simp [main, init, State.halted]
    | succ j =>
      obtain ⟨h1, _, _, h4, _⟩ :=
        main_loop osArgs fs path f hp hf j (fun i hi => hk i (by omega))
      exact ⟨h4, by simp [State.halted, h1]⟩
  · have hmk : m = k + 2 := by omega
    subst hmk
    obtain ⟨⟨h1, h2, _⟩, _⟩ := main_eof osArgs fs path f hp hf k hk he
    exact ⟨h2, by simp [State.halted, h1]⟩

theorem delivered_of_no_data (f : File) (h : ∀ i, (f i).data = none) (k : Nat) :
    delivered f k = [] := by
  induction k with
  | zero => rfl
  | succ k ih => simp [delivered, ih, h k]

/-- A run whose open succeeded and that has exited has gone through a first
read reporting end-of-file. -/
theorem first_eof_of_exited (osArgs : List String) (fs : FileSystem) (path : String)
    (f : File) (n : Nat) (hp : osArgs[1]? = some path) (hf : fs path = OpenResult.ok f)
    (hh : (main osArgs fs n).halted = true) :
    ∃ k, k + 3 ≤ n ∧ (∀ i, i < k → (f i).err ≠ some ReadErr.eof) ∧
      (f k).err = some ReadErr.eof := by
  have hex : ∃ i, (f i).err = some ReadErr.eof := by
    by_contra hcon
    have hne : ∀ i, (f i).err ≠ some ReadErr.eof := fun i hi => hcon ⟨i, hi⟩
    have := (main_never_eof osArgs fs path f hp hf hne n).1
    rw [hh] at this
    exact Bool.noConfusion this
  refine ⟨Nat.find hex, ?_, fun i hi => Nat.find_min hex hi, Nat.find_spec hex⟩
  by_contra hlt
  have := (main_not_closed osArgs fs path f hp hf (Nat.find hex)
    (fun i hi => Nat.find_min hex hi) (Nat.find_spec hex) n (by omega)).2
  rw [hh] at this
  exact Bool.noConfusion this

/-- The recogniser accepts a trace of the form the specification words. -/
theorem lifecycle_accepts_spec_form :
    lifecycle [Event.osOpen "f", Event.read, Event.write [0x41], Event.read,
      Event.write [], Event.close, Event.exit 0] = true := by
  decide

/-! ## The claims -/

/-- C1: when the open succeeds and the reads deliver the content `C` one byte
at a time followed by end-of-file, `main` terminates (after `C.length + 3`
steps, and stays there) with standard output exactly `C`, nothing on standard
error, the file closed and exit code 0. -/
theorem C1_output_is_content (osArgs : List String) (fs : FileSystem) (path : String)
    (C : List Byte) (hp : osArgs[1]? = some path)
    (hf : fs path = OpenResult.ok (fileOf C)) (n : Nat) (hn : C.length + 3 ≤ n) :
    (main osArgs fs n).pc = Pc.exited 0 ∧ (main osArgs fs n).stdout = C ∧
    (main osArgs fs n).stderr = "" ∧ (main osArgs fs n).closed = true := by
  obtain ⟨_, h1, h2, _, h4, h5, _⟩ :=
    main_eof osArgs fs path (fileOf C) hp hf C.length
      (fun i hi => fileOf_err_lt C i hi) (fileOf_err_length C)
  have hh : (main osArgs fs (C.length + 3)).halted = true := by
    simp [State.halted, h1]
  rw [main_of_halted osArgs fs _ hh n hn]
  exact ⟨h1, by rw [h4, delivered_fileOf], h5, h2⟩

/-- C1 on the file holding the bytes 0x41 0x42 0x43 (output `ABC`) and on the
empty file (empty output). -/
theorem C1_output_is_content_witness :
    ((main ["mcat", "abc"] sampleFS 6).pc = Pc.exited 0 ∧
     (main ["mcat", "abc"] sampleFS 6).stdout = [0x41, 0x42, 0x43] ∧
     (main ["mcat", "abc"] sampleFS 6).stderr = "" ∧
     (main ["mcat", "abc"] sampleFS 6).closed = true) ∧
    ((main ["mcat", "empty"] sampleFS 3).pc = Pc.exited 0 ∧
     (main ["mcat", "empty"] sampleFS 3).stdout = [] ∧
     (main ["mcat", "empty"] sampleFS 3).stderr = "" ∧
     (main ["mcat", "empty"] sampleFS 3).closed = true) :=
  ⟨C1_output_is_content ["mcat", "abc"] sampleFS "abc" [0x41, 0x42, 0x43] rfl rfl 6
      (by decide),
   C1_output_is_content ["mcat", "empty"] sampleFS "empty" [] rfl rfl 3 (by decide)⟩

/-- C2: when the open fails with error `e`, `main` writes nothing to standard
output, performs no read, writes exactly the one line `mcat: e` and a newline
to standard error, and exits with code 1. -/
theorem C2_open_failure (osArgs : List String) (fs : FileSystem) (path e : String)
    (hp : osArgs[1]? = some path) (hf : fs path = OpenResult.error e)
    (n : Nat) (hn : 1 ≤ n) :
    (main osArgs fs n).pc = Pc.exited 1 ∧ (main osArgs fs n).stdout = [] ∧
    (main osArgs fs n).stderr = "mcat: " ++ e ++ "\n" ∧
    (main osArgs fs n).trace
      = [Event.osOpen path, Event.errWrite ("mcat: " ++ e ++ "\n"), Event.exit 1] ∧
    Event.read ∉ (main osArgs fs n).trace ∧ (main osArgs fs n).pos = 0 := by
  rw [main_open_error osArgs fs path e hp hf n hn]
  simp

/-- C2 on a path that does not exist. -/
theorem C2_open_failure_witness :
    (main ["mcat", "nope"] sampleFS 1).pc = Pc.exited 1 ∧
    (main ["mcat", "nope"] sampleFS 1).stdout = [] ∧
    (main ["mcat", "nope"] sampleFS 1).stderr
      = "mcat: " ++ "open nope: no such file or directory" ++ "\n" ∧
    (main ["mcat", "nope"] sampleFS 1).trace
      = [Event.osOpen "nope",
         Event.errWrite ("mcat: " ++ "open nope: no such file or directory" ++ "\n"),
         Event.exit 1] ∧
    Event.read ∉ (main ["mcat", "nope"] sampleFS 1).trace ∧
    (main ["mcat", "nope"] sampleFS 1).pos = 0 :=
  C2_open_failure ["mcat", "nope"] sampleFS "nope" "open nope: no such file or directory"
    rfl rfl 1 (Nat.le_refl 1)

/-- C3: in every terminating run of `main` with a path argument, standard
error is written to exactly when the open failed, the exit code is 1 exactly
when the open failed and 0 exactly when it succeeded, whatever the reads
return. -/
theorem C3_stderr_and_exit_code (osArgs : List String) (fs : FileSystem) (path : String)
    (n code : Nat) (hp : osArgs[1]? = some path)
    (hx : (main osArgs fs n).pc = Pc.exited code) :
    ((main osArgs fs n).stderr ≠ "" ↔ ∃ e, fs path = OpenResult.error e) ∧
    ((∃ t, Event.errWrite t ∈ (main osArgs fs n).trace) ↔ ∃ e, fs path = OpenResult.error e) ∧
    (code = 1 ↔ ∃ e, fs path = OpenResult.error e) ∧
    (code = 0 ↔ ∃ f, fs path = OpenResult.ok f) := by
  cases hf : fs path with
  | ok f =>
    obtain ⟨q1, q2, q3, _⟩ := quiet_main osArgs fs path f hp hf n
    have hc : code = 0 := q3 code hx
    subst hc
    refine ⟨?_, ?_, ?_, ?_⟩
    · simp [q1]
    · simp [q2]
    · simp
    · simp
  | error e =>
    have hn : 1 ≤ n := by
      rcases Nat.eq_zero_or_pos n with h0 | h0
      · subst h0; simp [main, init] at hx
      · exact h0
    have hm := main_open_error osArgs fs path e hp hf n hn
    rw [hm] at hx ⊢
    have hc : code = 1 := by simpa using hx.symm
    subst hc
    refine ⟨?_, ?_, ?_, ?_⟩
    · simpa using errLine_ne_empty e
    · simp
    · simp
    · simp

/-- C3 on a run whose open fails and on a run that copies three bytes. -/
theorem C3_stderr_and_exit_code_witness :
    (((main ["mcat", "nope"] sampleFS 1).stderr ≠ "" ↔
        ∃ e, sampleFS "nope" = OpenResult.error e) ∧
     ((∃ t, Event.errWrite t ∈ (main ["mcat", "nope"] sampleFS 1).trace) ↔
        ∃ e, sampleFS "nope" = OpenResult.error e) ∧
     (1 = 1 ↔ ∃ e, sampleFS "nope" = OpenResult.error e) ∧
     (1 = 0 ↔ ∃ f, sampleFS "nope" = OpenResult.ok f)) ∧
    (((main ["mcat", "abc"] sampleFS 6).stderr ≠ "" ↔
        ∃ e, sampleFS "abc" = OpenResult.error e) ∧
     ((∃ t, Event.errWrite t ∈ (main ["mcat", "abc"] sampleFS 6).trace) ↔
        ∃ e, sampleFS "abc" = OpenResult.error e) ∧
     (0 = 1 ↔ ∃ e, sampleFS "abc" = OpenResult.error e) ∧
     (0 = 0 ↔ ∃ f, sampleFS "abc" = OpenResult.ok f)) :=
  ⟨C3_stderr_and_exit_code ["mcat", "nope"] sampleFS "nope" 1 1 rfl (by decide),
   C3_stderr_and_exit_code ["mcat", "abc"] sampleFS "abc" 6 0 rfl (by decide)⟩

/-- C4: in every loop iteration whose read does not report end-of-file,
`main` appends to standard output exactly the first `n` bytes of the buffer,
which are the bytes the read delivered, unchanged: one byte of any value is
appended as that same byte, and a read of zero bytes appends nothing. -/
theorem C4_iteration_writes_bytes_read (osArgs : List String) (fs : FileSystem)
    (path : String) (f : File) (k : Nat) (hp : osArgs[1]? = some path)
    (hf : fs path = OpenResult.ok f)
    (hk : ∀ i, i ≤ k → (f i).err ≠ some ReadErr.eof) :
    (main osArgs fs (k + 2)).stdout
      = (main osArgs fs (k + 1)).stdout
          ++ (main osArgs fs (k + 2)).buffer.take (f k).bytesread ∧
    (main osArgs fs (k + 2)).stdout
      = (main osArgs fs (k + 1)).stdout ++ (f k).data.toList ∧
    (∀ b : Byte, (f k).data = some b →
      (f k).bytesread = 1 ∧
      (main osArgs fs (k + 2)).stdout = (main osArgs fs (k + 1)).stdout ++ [b]) ∧
    ((f k).data = none →
      (f k).bytesread = 0 ∧
      (main osArgs fs (k + 2)).stdout = (main osArgs fs (k + 1)).stdout) ∧
    (main osArgs fs (k + 2)).trace
      = (main osArgs fs (k + 1)).trace ++ [Event.read, Event.write (f k).data.toList] := by
  obtain ⟨h1, h2, h3, _, h5, _, _, _⟩ :=
    main_loop osArgs fs path f hp hf k (fun i hi => hk i (Nat.le_of_lt hi))
  have hnr : (main osArgs fs (k + 1)).nextRead = f k := by
    simp [State.nextRead, h2, h3]
  have hne : (main osArgs fs (k + 1)).nextRead.err ≠ some ReadErr.eof := by
    rw [hnr]; exact hk k (Nat.le_refl k)
  obtain ⟨_, _, _, _, _, g6, _, g8⟩ := step_reading_go osArgs fs _ h1 h5 hne
  have gb := step_reading_buffer osArgs fs _ h1 h5 hne
  have e2 : main osArgs fs (k + 2) = step osArgs fs (main osArgs fs (k + 1)) := rfl
  rw [← e2, hnr] at g6 g8 gb
  refine ⟨by rw [gb, g6], g6, ?_, ?_, g8⟩
  · intro b hb
    exact ⟨by simp [ReadResult.bytesread, hb], by rw [g6, hb]; rfl⟩
  · intro hb
    exact ⟨by simp [ReadResult.bytesread, hb], by rw [g6, hb]; simp⟩

/-- C4 on the file holding the bytes 0x00 and 0xFF: the second iteration
appends the single byte 0xFF. -/
theorem C4_iteration_writes_bytes_read_witness :
    (main ["mcat", "bin"] sampleFS 3).stdout = [0x00, 0xFF] ∧
    (main ["mcat", "bin"] sampleFS 3).stdout
      = (main ["mcat", "bin"] sampleFS 2).stdout ++ [0xFF] :=
  ⟨by decide,
   ((C4_iteration_writes_bytes_read ["mcat", "bin"] sampleFS "bin" (fileOf [0x00, 0xFF]) 1
      rfl rfl (by decide)).2.2.1 0xFF rfl).2⟩

/-- C5: two runs of `main` with the same arguments against file systems that
give the same open result (hence the same sequence of read results) for the
path argument go through the same states, and when both have ended they have
the same standard output, the same standard error and the same exit code. -/
theorem C5_deterministic (osArgs : List String) (fs1 fs2 : FileSystem)
    (h : ∀ path, osArgs[1]? = some path → fs1 path = fs2 path) :
    (∀ n, main osArgs fs1 n = main osArgs fs2 n) ∧
    (∀ n1 n2, (main osArgs fs1 n1).halted = true → (main osArgs fs2 n2).halted = true →
      (main osArgs fs1 n1).stdout = (main osArgs fs2 n2).stdout ∧
      (main osArgs fs1 n1).stderr = (main osArgs fs2 n2).stderr ∧
      (main osArgs fs1 n1).pc = (main osArgs fs2 n2).pc) := by
  have hs : ∀ n, main osArgs fs1 n = main osArgs fs2 n := by
    intro n
    induction n with
    | zero => rfl
    | succ n ih => rw [main_succ, main_succ, ih, step_congr osArgs fs1 fs2 h]
  refine ⟨hs, ?_⟩
  intro n1 n2 h1 h2
  have he : main osArgs fs1 n1 = main osArgs fs2 n2 := by
    rcases Nat.le_total n1 n2 with hle | hle
    · rw [← hs n2, main_of_halted osArgs fs1 n1 h1 n2 hle]
    · rw [hs n1, main_of_halted osArgs fs2 n2 h2 n1 hle]
  rw [he]
  exact ⟨rfl, rfl, rfl⟩

/-- C5 on two file systems that agree on the path `abc` and differ elsewhere,
the runs being observed after different numbers of steps. -/
theorem C5_deterministic_witness :
    (main ["mcat", "abc"] sampleFS 6).stdout
      = (main ["mcat", "abc"] (fun p => if p = "abc" then sampleFS p else sampleFS "empty") 9).stdout ∧
    (main ["mcat", "abc"] sampleFS 6).stderr
      = (main ["mcat", "abc"] (fun p => if p = "abc" then sampleFS p else sampleFS "empty") 9).stderr ∧
    (main ["mcat", "abc"] sampleFS 6).pc
      = (main ["mcat", "abc"] (fun p => if p = "abc" then sampleFS p else sampleFS "empty") 9).pc :=
  (C5_deterministic ["mcat", "abc"] sampleFS
      (fun p => if p = "abc" then sampleFS p else sampleFS "empty")
      (by intro path hpath; simp at hpath; subst hpath; rfl)).2 6 9 (by decide) (by decide)

/-- C7: the access `os.Args[1]` is in bounds exactly when at least one argument
follows the program name; with no argument `main` fails at that access with an
index-out-of-range failure, no file has been opened and nothing has been
written to standard output. -/
theorem C7_argument_access (osArgs : List String) (fs : FileSystem) :
    (osArgs[1]?.isSome = true ↔ osArgs.tail ≠ []) ∧
    ((∃ i l, (main osArgs fs 1).pc = Pc.panicked i l) ↔ osArgs.tail = []) ∧
    (osArgs.tail = [] → ∀ n, 1 ≤ n →
      (main osArgs fs n).pc = Pc.panicked 1 osArgs.length ∧
      (main osArgs fs n).trace = [] ∧ (main osArgs fs n).file = none ∧
      (main osArgs fs n).stdout = []) := by
  have key : osArgs.tail = [] → osArgs[1]? = none := by
    intro ht
    rcases osArgs with _ | ⟨a, _ | ⟨b, r⟩⟩ <;> simp_all
  refine ⟨?_, ?_, ?_⟩
  · rcases osArgs with _ | ⟨a, _ | ⟨b, r⟩⟩ <;> simp
  · constructor
    · rintro ⟨i, l, hx⟩
      rcases osArgs with _ | ⟨a, _ | ⟨b, r⟩⟩
      · rfl
      · rfl
      · exfalso
        cases hf : fs b <;> simp [main, step, init, hf] at hx
    · intro ht
      exact ⟨1, osArgs.length, by simp [main, step, init, key ht]⟩
  · intro ht n hn
    have h1 : main osArgs fs 1 =
        { pc := Pc.panicked 1 osArgs.length, file := none, pos := 0, closed := false,
          buffer := [], stdout := [], stderr := "", trace := [] } := by
      simp [main, step, init, key ht]
    rw [main_of_halted osArgs fs 1 (by rw [h1]; rfl) n hn, h1]
    exact ⟨rfl, rfl, rfl, rfl⟩

/-- C7 on a run with the program name only. -/
theorem C7_argument_access_witness :
    (main ["mcat"] sampleFS 4).pc = Pc.panicked 1 1 ∧
    (main ["mcat"] sampleFS 4).trace = [] ∧ (main ["mcat"] sampleFS 4).file = none ∧
    (main ["mcat"] sampleFS 4).stdout = [] :=
  (C7_argument_access ["mcat"] sampleFS).2.2 rfl 4 (by decide)

/-- C8: a loop iteration leaves the loop exactly when its read
reports end-of-file; a read with any other error is ignored (nothing is reported, the
loop goes on to the next read); so when no read ever reports end-of-file the
run is still in the loop, with the file open, after any number of reads. -/
theorem C8_loop_stops_only_at_eof (osArgs : List String) (fs : FileSystem) :
    (∀ s : State, s.pc = Pc.reading →
      ((step osArgs fs s).pc = Pc.closing ↔ s.nextRead.err = some ReadErr.eof) ∧
      (s.nextRead.err ≠ some ReadErr.eof →
        (step osArgs fs s).pc = Pc.reading ∧ (step osArgs fs s).pos = s.pos + 1 ∧
        (step osArgs fs s).file = s.file ∧ (step osArgs fs s).closed = s.closed ∧
        (step osArgs fs s).stderr = s.stderr ∧
        ∀ t, Event.errWrite t ∈ (step osArgs fs s).trace → Event.errWrite t ∈ s.trace)) ∧
    (∀ path f, osArgs[1]? = some path → fs path = OpenResult.ok f →
      (∀ i, (f i).err ≠ some ReadErr.eof) →
      ∀ n, (main osArgs fs (n + 1)).pc = Pc.reading ∧ (main osArgs fs (n + 1)).pos = n ∧
        (main osArgs fs (n + 1)).closed = false ∧ (main osArgs fs (n + 1)).stderr = "" ∧
        (main osArgs fs (n + 1)).halted = false) := by
  constructor
  · intro s hpc
    by_cases he : s.nextRead.err = some ReadErr.eof
    · simp [step, hpc, fileRead, he]
    · simp [step, hpc, fileRead, he]
  · intro path f hp hf hne n
    obtain ⟨h1, _, h3, h4, _, _, h7, _⟩ :=
      main_loop osArgs fs path f hp hf n (fun i _ => hne i)
    exact ⟨h1, h3, h4, h7, by simp [State.halted, h1]⟩

/-- C8 on a file whose every read fails with an input/output error: after
five reads the run is at the head of the loop with the file open. -/
theorem C8_loop_stops_only_at_eof_witness :
    (main ["mcat", "stuck"] sampleFS 6).pc = Pc.reading ∧
    (main ["mcat", "stuck"] sampleFS 6).pos = 5 ∧
    (main ["mcat", "stuck"] sampleFS 6).closed = false ∧
    (main ["mcat", "stuck"] sampleFS 6).stderr = "" ∧
    (main ["mcat", "stuck"] sampleFS 6).halted = false :=
  (C8_loop_stops_only_at_eof ["mcat", "stuck"] sampleFS).2 "stuck"
    (fun _ => { data := none, err := some (ReadErr.other "input/output error") })
    rfl rfl (by intro i; simp) 5

/-- C10: the read that reports end-of-file is followed by no write, whatever
byte count it returns; at every moment of the run standard output holds only
bytes delivered by reads before the first end-of-file, and at the end it holds
all of them. -/
theorem C10_eof_read_writes_nothing (osArgs : List String) (fs : FileSystem)
    (path : String) (f : File) (k : Nat) (hp : osArgs[1]? = some path)
    (hf : fs path = OpenResult.ok f)
    (hk : ∀ i, i < k → (f i).err ≠ some ReadErr.eof)
    (he : (f k).err = some ReadErr.eof) :
    (main osArgs fs (k + 2)).stdout = (main osArgs fs (k + 1)).stdout ∧
    (main osArgs fs (k + 2)).trace = (main osArgs fs (k + 1)).trace ++ [Event.read] ∧
    (∀ n, (main osArgs fs n).stdout = delivered f (min (n - 1) k)) ∧
    (∀ n, k + 3 ≤ n →
      (main osArgs fs n).pc = Pc.exited 0 ∧ (main osArgs fs n).stdout = delivered f k) := by
  obtain ⟨_, _, _, _, _, l6, _, l8⟩ := main_loop osArgs fs path f hp hf k hk
  obtain ⟨⟨_, _, m3, _, m5⟩, n1, _, _, n4, _, _⟩ := main_eof osArgs fs path f hp hf k hk he
  have hh : (main osArgs fs (k + 3)).halted = true := by simp [State.halted, n1]
  refine ⟨by rw [m3, l6], by rw [m5, l8], ?_, ?_⟩
  · intro n
    rcases Nat.lt_or_ge n (k + 2) with hlt | hge
    · cases n with
      | zero => simp [main, init, delivered]
      | succ j =>
        obtain ⟨_, _, _, _, _, j6, _⟩ :=
          main_loop osArgs fs path f hp hf j (fun i hi => hk i (by omega))
        rw [j6]
        congr 1
        omega
    · have hmin : min (n - 1) k = k := by omega
      rw [hmin]
      rcases Nat.lt_or_ge n (k + 3) with hlt | hge3
      · have hn : n = k + 2 := by omega
        subst hn
        exact m3
      · rw [main_of_halted osArgs fs _ hh n hge3]
        exact n4
  · intro n hn
    rw [main_of_halted osArgs fs _ hh n hn]
    exact ⟨n1, n4⟩

/-- C10 on a file whose second read returns the byte 0x58 together
with end-of-file: the output is the first byte only. -/
theorem C10_eof_read_writes_nothing_witness :
    (main ["mcat", "eofbyte"] sampleFS 4).pc = Pc.exited 0 ∧
    (main ["mcat", "eofbyte"] sampleFS 4).stdout = [0x41] :=
  ⟨((C10_eof_read_writes_nothing ["mcat", "eofbyte"] sampleFS "eofbyte"
      (fun k =>
        if k = 0 then { data := some 0x41, err := none }
        else { data := some 0x58, err := some ReadErr.eof })
      1 rfl rfl (by decide) rfl).2.2.2 4 (by decide)).1,
   by decide⟩

/-- C6, as the code behaves: when the path argument names a directory and the
open fails with error `e`, `main` writes the line `mcat: e` to standard error,
nothing to standard output, and exits with code 1; on a POSIX file system,
where the open of a directory succeeds and every read fails with an
is-a-directory error, `main` writes nothing to either stream, keeps the file
open and never ends. -/
theorem C6_directory (osArgs : List String) (fs : FileSystem) (path : String)
    (hp : osArgs[1]? = some path) :
    (∀ e, fs path = OpenResult.error e → ∀ n, 1 ≤ n →
      (main osArgs fs n).pc = Pc.exited 1 ∧ (main osArgs fs n).stdout = [] ∧
      (main osArgs fs n).stderr = "mcat: " ++ e ++ "\n") ∧
    (∀ nodes : String → Node, nodes path = Node.directory → ∀ n,
      (main osArgs (posixFS nodes) n).halted = false ∧
      (main osArgs (posixFS nodes) n).closed = false ∧
      (main osArgs (posixFS nodes) n).stdout = [] ∧
      (main osArgs (posixFS nodes) n).stderr = "") := by
  constructor
  · intro e hf n hn
    rw [main_open_error osArgs fs path e hp hf n hn]
    exact ⟨rfl, rfl, rfl⟩
  · intro nodes hd n
    have hf : posixFS nodes path = OpenResult.ok (fun _ =>
        { data := none, err := some (ReadErr.other ("read " ++ path ++ ": is a directory")) }) := by
      simp [posixFS, posixOpen, hd]
    obtain ⟨h1, h2, h3, h4⟩ :=
      main_never_eof osArgs (posixFS nodes) path _ hp hf (by intro i; simp) n
    refine ⟨h1, h2, ?_, h4⟩
    rw [h3]
    exact delivered_of_no_data _ (fun _ => rfl) _

/-- C6 on the directory `d`: after seven steps the run has not ended and has
written nothing. -/
theorem C6_directory_witness :
    (main ["mcat", "d"] (posixFS dirNodes) 7).halted = false ∧
    (main ["mcat", "d"] (posixFS dirNodes) 7).closed = false ∧
    (main ["mcat", "d"] (posixFS dirNodes) 7).stdout = [] ∧
    (main ["mcat", "d"] (posixFS dirNodes) 7).stderr = "" :=
  (C6_directory ["mcat", "d"] (posixFS dirNodes) "d" rfl).2 dirNodes rfl 7

/-- C6 as stated fails on the directory `d` of a POSIX file system: the open
does not fail, the run never exits with code 1 and standard error stays
empty. -/
theorem C6_directory_counterexample :
    (¬ ∃ e, posixFS dirNodes "d" = OpenResult.error e) ∧
    (¬ ∃ n, (main ["mcat", "d"] (posixFS dirNodes) n).pc = Pc.exited 1) ∧
    (¬ ∃ n, (main ["mcat", "d"] (posixFS dirNodes) n).stderr ≠ "") := by
  have hf : posixFS dirNodes "d" = OpenResult.ok (fun _ =>
      { data := none, err := some (ReadErr.other ("read " ++ "d" ++ ": is a directory")) }) := rfl
  refine ⟨?_, ?_, ?_⟩
  · rintro ⟨e, he⟩
    rw [hf] at he
    exact OpenResult.noConfusion he
  · rintro ⟨n, hn⟩
    have := (main_never_eof ["mcat", "d"] (posixFS dirNodes) "d" _ rfl hf
      (by intro i; simp) n).1
    simp [State.halted, hn] at this
  · rintro ⟨n, hn⟩
    exact hn (main_never_eof ["mcat", "d"] (posixFS dirNodes) "d" _ rfl hf
      (by intro i; simp) n).2.2.2

/-- C9, as the code behaves: in every terminating run of `main` in which the
open succeeds, the operations are, in this order, the open, then zero or more
repetitions of (read then write), then one last read, the one that
reports end-of-file and is followed by no write, then the close, then the exit with
code 0; the file is opened once, closed exactly once, closed only after the
loop has ended, and nothing is read or written after the close. -/
theorem C9_lifecycle (osArgs : List String) (fs : FileSystem) (path : String)
    (f : File) (n code : Nat) (hp : osArgs[1]? = some path)
    (hf : fs path = OpenResult.ok f) (hx : (main osArgs fs n).pc = Pc.exited code) :
    ∃ k, k + 3 ≤ n ∧ (∀ i, i < k → (f i).err ≠ some ReadErr.eof) ∧
      (f k).err = some ReadErr.eof ∧ code = 0 ∧
      (main osArgs fs n).trace
        = Event.osOpen path :: (loopTrace f k ++ [Event.read, Event.close, Event.exit 0]) ∧
      (main osArgs fs n).trace.count (Event.osOpen path) = 1 ∧
      (main osArgs fs n).trace.count Event.close = 1 ∧
      (main osArgs fs n).closed = true ∧
      (∀ m, (main osArgs fs m).closed = true →
        k + 3 ≤ m ∧ (main osArgs fs m).pc = Pc.exited 0) := by
  have hh : (main osArgs fs n).halted = true := by simp [State.halted, hx]
  obtain ⟨k, hkn, hk, he⟩ := first_eof_of_exited osArgs fs path f n hp hf hh
  obtain ⟨_, e1, e2, _, _, _, e6⟩ := main_eof osArgs fs path f hp hf k hk he
  have h3 : (main osArgs fs (k + 3)).halted = true := by simp [State.halted, e1]
  have hn := main_of_halted osArgs fs (k + 3) h3 n hkn
  have hc : code = 0 := by
    rw [hn, e1] at hx
    exact (Pc.exited.inj hx).symm
  refine ⟨k, hkn, hk, he, hc, ?_, ?_, ?_, ?_, ?_⟩
  · rw [hn, e6]; simp
  · rw [hn, e6]; simp [count_osOpen_loopTrace]
  · rw [hn, e6]; simp [count_close_loopTrace]
  · rw [hn, e2]
  · intro m hm
    have hkm : k + 3 ≤ m := by
      by_contra hlt
      have := (main_not_closed osArgs fs path f hp hf k hk he m (by omega)).1
      rw [hm] at this
      exact Bool.noConfusion this
    exact ⟨hkm, by rw [main_of_halted osArgs fs (k + 3) h3 m hkm, e1]⟩

/-- C9 on the run that copies the three bytes of the file `abc`. -/
theorem C9_lifecycle_witness :
    ∃ k, k + 3 ≤ 6 ∧ (∀ i, i < k → (fileOf [0x41, 0x42, 0x43] i).err ≠ some ReadErr.eof) ∧
      (fileOf [0x41, 0x42, 0x43] k).err = some ReadErr.eof ∧ 0 = 0 ∧
      (main ["mcat", "abc"] sampleFS 6).trace
        = Event.osOpen "abc" ::
            (loopTrace (fileOf [0x41, 0x42, 0x43]) k
              ++ [Event.read, Event.close, Event.exit 0]) ∧
      (main ["mcat", "abc"] sampleFS 6).trace.count (Event.osOpen "abc") = 1 ∧
      (main ["mcat", "abc"] sampleFS 6).trace.count Event.close = 1 ∧
      (main ["mcat", "abc"] sampleFS 6).closed = true ∧
      (∀ m, (main ["mcat", "abc"] sampleFS m).closed = true →
        k + 3 ≤ m ∧ (main ["mcat", "abc"] sampleFS m).pc = Pc.exited 0) :=
  C9_lifecycle ["mcat", "abc"] sampleFS "abc" (fileOf [0x41, 0x42, 0x43]) 6 0 rfl rfl
    (by decide)

/-- C9 as stated fails on the empty file and on the three-byte file: both
runs end with exit code 0 after a successful open, and their traces are not of the
form open, (read, write) repeated, close, exit, because of the last read. -/
theorem C9_lifecycle_counterexample :
    ((main ["mcat", "empty"] sampleFS 3).pc = Pc.exited 0 ∧
     (main ["mcat", "empty"] sampleFS 3).trace
       = [Event.osOpen "empty", Event.read, Event.close, Event.exit 0] ∧
     lifecycle (main ["mcat", "empty"] sampleFS 3).trace = false) ∧
    ((main ["mcat", "abc"] sampleFS 6).pc = Pc.exited 0 ∧
     (main ["mcat", "abc"] sampleFS 6).trace
       = [Event.osOpen "abc", Event.read, Event.write [0x41], Event.read,
          Event.write [0x42], Event.read, Event.write [0x43], Event.read,
          Event.close, Event.exit 0] ∧
     lifecycle (main ["mcat", "abc"] sampleFS 6).trace = false) := by
  decide

end Mcat
